import Mathlib

/-!
# Verification of the `fileserver` upload/retrieval/listing/deletion workflows

Shallow embedding of the Go repository `fscotto/fileserver`:

* `src/internal/api/file_handler.go` — the HTTP handlers `GetFiles`,
  `GetFile`, `LoadFile`, `DeleteFile` and the local `cleanup` helper;
* `src/internal/service/document_service.go` — the metadata-store
  operations `GetFiles`, `GetDocument`, `GetDocumentByFingerprint`,
  `AddDocument`;
* `src/internal/service/minio_service.go` — the object-store operations,
  modelled at their interface boundary (success/failure supplied by an
  environment record, effects recorded in an event trace);
* `src/unnamed/part_000` — the `documents` table schema (`id_file` and
  `fingerprint` carry table-wide `UNIQUE` constraints);
* the `Document` model (`src/unnamed/part_002`), whose `gorm.DeletedAt`
  field makes the GORM library append `deleted_at IS NULL` to every
  non-unscoped query and turn `DB.Delete` into a soft delete that sets
  `deleted_at`.

External effects (disk, object store, database I/O) can each fail
independently; an environment record chooses each outcome, and the
embedding of a handler is a pure function from the environment and the
database state to an HTTP outcome, the new database state, and a trace of
the side effects the handler performed, in order.
-/

namespace Fileserver

/-- A row of the `documents` table (`CREATE TABLE documents` in
`src/unnamed/part_000`, `models.Document` in `src/unnamed/part_002`).
UUIDs are modelled as strings; timestamps as naturals.  `deletedAt = none`
means the row is live; `some t` means it was soft-deleted at time `t`. -/
structure Document where
  id : Nat
  name : String
  idFile : String
  fingerprint : String
  deletedAt : Option Nat
  deriving DecidableEq, Repr

/-- The metadata store: the `documents` table as an ordered list of rows. -/
abbrev DB := List Document

/-! ## SQL `LIKE` / `ILIKE` pattern matching

`service.GetFiles` runs `name ILIKE ?` against PostgreSQL.  In a LIKE
pattern `%` matches any sequence of characters, `_` matches exactly one
character, and a backslash escapes the next pattern character.  `ILIKE` is
the case-insensitive variant: we model it by lowercasing both pattern and
subject before matching. -/

/-- Lowercase a character list (model of `ILIKE` case folding). -/
def lowL (s : List Char) : List Char := s.map Char.toLower

/-- `starM f s`: does `f` accept some suffix of `s`?  This is how a `%`
wildcard consumes any (possibly empty) run of characters. -/
def starM (f : List Char → Bool) : List Char → Bool
  | [] => f []
  | c :: cs => f (c :: cs) || starM f cs

/-- SQL `LIKE` matching of a pattern against a subject string.
`%` matches any (possibly empty) sequence, `_` any single character, and
`\\c` matches the literal character `c`.  (PostgreSQL rejects a pattern
ending in a lone escape character; such a pattern matches nothing here.) -/
def likeM : List Char → List Char → Bool
  | [], s => s.isEmpty
  | '%' :: ps, s => starM (likeM ps) s
  | '_' :: _, [] => false
  | '_' :: ps, _ :: cs => likeM ps cs
  | '\\' :: q :: ps, c :: cs => q == c && likeM ps cs
  | '\\' :: _, _ => false
  | _ :: _, [] => false
  | p :: ps, c :: cs => p == c && likeM ps cs

/-- `ILIKE`: case-insensitive `LIKE` (both sides case-folded). -/
def ilikeMatches (pat s : String) : Bool := likeM (lowL pat.data) (lowL s.data)

/-- `hasPre q s`: `q` is a prefix of `s`. -/
def hasPre : List Char → List Char → Bool
  | [], _ => true
  | _ :: _, [] => false
  | a :: as, b :: bs => a == b && hasPre as bs

/-- `hasSub q s`: `q` occurs as a contiguous sublist of `s`. -/
def hasSub (q : List Char) : List Char → Bool
  | [] => hasPre q []
  | c :: cs => hasPre q (c :: cs) || hasSub q cs

/-- The spec's notion "name contains the term as a case-insensitive
substring". -/
def icontains (q s : String) : Bool := hasSub (lowL q.data) (lowL s.data)

/-- A character with no special meaning in a LIKE pattern. -/
def plainChar (c : Char) : Bool := !(c == '%') && !(c == '_') && !(c == '\\')

/-- A search term free of LIKE wildcard/escape characters. -/
def wildcardFree (q : String) : Bool := q.data.all plainChar

/-! ## Metadata-store operations (`src/internal/service/document_service.go`) -/

/-- `service.GetFiles`: `SELECT * FROM documents WHERE deleted_at IS NULL
AND name ILIKE ?`, rows in storage order. -/
def serviceGetFiles (db : DB) (pattern : String) : List Document :=
  db.filter (fun d => d.deletedAt.isNone && ilikeMatches pattern d.name)

/-- `service.GetDocument`: first row with `deleted_at IS NULL AND id_file = ?`
(the handler treats "no row" as an error / `nil` document). -/
def getDocument (db : DB) (idFile : String) : Option Document :=
  db.find? (fun d => d.deletedAt.isNone && d.idFile == idFile)

/-- `service.GetDocumentByFingerprint`: first row with `fingerprint = ?`.
The explicit SQL carries no `deleted_at` condition, but the
`gorm.DeletedAt` field of `models.Document` makes GORM add
`deleted_at IS NULL` to this (non-unscoped) query, so only live rows are
found. -/
def getDocumentByFingerprint (db : DB) (fp : String) : Option Document :=
  db.find? (fun d => d.deletedAt.isNone && d.fingerprint == fp)

/-- `service.AddDocument` / `config.DB.Create`: the insert succeeds only
when the I/O succeeds (`ioOk`) and the table-wide `UNIQUE` constraints on
`id_file` and `fingerprint` (`src/unnamed/part_000`) hold against every
existing row, soft-deleted rows included. -/
def addDocument (db : DB) (doc : Document) (ioOk : Bool) : Option DB :=
  if ioOk && db.all (fun r => !(r.idFile == doc.idFile) && !(r.fingerprint == doc.fingerprint))
  then some (db ++ [doc])
  else none

/-- `config.DB.Delete(&document)` on a model with a `gorm.DeletedAt`
field: a soft delete that sets `deleted_at = now` on the row with the
given primary key (the handler passes a row it just fetched live). -/
def softDelete (db : DB) (rowId : Nat) (now : Nat) : DB :=
  db.map (fun r =>
    if r.id == rowId && r.deletedAt.isNone then
      { r with deletedAt := some now }
    else r)

/-- Uniqueness invariant of the `documents` table: `id_file` and
`fingerprint` are each unique across the entire table, soft-deleted rows
included (`UNIQUE` columns in `src/unnamed/part_000`). -/
def uniqueKeys (db : DB) : Prop :=
  (db.map Document.idFile).Nodup ∧ (db.map Document.fingerprint).Nodup

/-! ## HTTP handlers (`src/internal/api/file_handler.go`)

Each handler is a pure function of an environment (request data plus the
success/failure outcome of every fallible external call) and the database
state.  It returns the HTTP outcome, the new database state, and the
ordered trace of external side effects it performed. -/

/-- One external side effect of a handler. -/
inductive Ev where
  | createLocal (path : String)
  | removeLocal (path : String)
  | metaSearch (pattern : String)
  | metaIdQuery (idFile : String)
  | metaFpQuery (fp : String)
  | metaInsert (ok : Bool)
  | metaSoftDelete (rowId : Nat)
  | minioPut (bucket key : String)
  | minioGet (bucket key : String)
  | minioDelete (bucket key : String)
  deriving DecidableEq, Repr

/-- HTTP outcome of a handler invocation.  `noWrite` is the path where the
Go handler returns without writing anything to the `ResponseWriter`; the
`net/http` server then sends an implicit `200 OK` with an empty body. -/
inductive HStatus where
  | ok200
  | bad400
  | notFound404
  | conflict409
  | notAllowed405
  | err500
  | noWrite
  deriving DecidableEq, Repr

/-- `defaultBucketName` constant of `file_handler.go`. -/
def defaultBucketName : String := "documents"

/-- `r.ParseMultipartForm(10 << 20)`: the multipart memory limit (bytes). -/
def multipartLimit : Nat := 10 <<< 20

/-- Environment of one `LoadFile` (POST /file) invocation: request data,
the two freshly generated UUIDs, and the outcome of each fallible call. -/
structure UploadEnv where
  methodIsPost : Bool
  parseFormOk : Bool
  hasFileField : Bool
  filename : String
  content : List Nat
  mkdirOk : Bool
  createOk : Bool
  copyOk : Bool
  now : Nat
  freshFingerprint : String
  freshId : String
  minioPutOk : Bool
  insertIoOk : Bool
  nextRowId : Nat
  deriving Repr

/-- The staged file's path: upload dir + `fmt.Sprintf("%d_%s", time.Now
().Unix(), header.Filename)`. -/
def stagedPath (e : UploadEnv) : String :=
  "/tmp/fileserver/uploads/" ++ toString e.now ++ "_" ++ e.filename

/-- The `models.Document` row `LoadFile` builds for the metadata insert:
`name` is the original filename, `fileId` the freshly generated UUID,
`fingerprint` the value computed earlier in the handler. -/
def newDocument (e : UploadEnv) : Document :=
  { id := e.nextRowId, name := e.filename, idFile := e.freshId,
    fingerprint := e.freshFingerprint, deletedAt := none }

/-- The part of `LoadFile` that runs after the staged file was created
successfully; the deferred `cleanup` of the caller wraps its trace.
Note `fingerprint := uuid.New().String()`: a fresh random value
(`e.freshFingerprint`), NOT a hash of the staged file's bytes — the call
to `utils.CalculateFingerprint` is commented out in the source. -/
def loadFileBody (e : UploadEnv) (db : DB) : HStatus × DB × List Ev :=
  if !e.copyOk then (.err500, db, [])
  else
    let fp := e.freshFingerprint
    match getDocumentByFingerprint db fp with
    | some _ => (.conflict409, db, [.metaFpQuery fp])
    | none =>
      if !e.minioPutOk then
        (.err500, db, [.metaFpQuery fp, .minioPut defaultBucketName e.freshId])
      else
        match addDocument db (newDocument e) e.insertIoOk with
        | none =>
            (.err500, db,
              [.metaFpQuery fp, .minioPut defaultBucketName e.freshId,
               .metaInsert false])
        | some db2 =>
            (.ok200, db2,
              [.metaFpQuery fp, .minioPut defaultBucketName e.freshId,
               .metaInsert true])

/-- `LoadFile` (POST /file).  Early-return error paths in source order:
405 on wrong method, 400 on multipart parse failure, 500 on a missing
`file` form field, 500 on mkdir/create failure.  Once `os.Create`
succeeds, a deferred `cleanup` removes the staged file on every
subsequent return path. -/
def loadFile (e : UploadEnv) (db : DB) : HStatus × DB × List Ev :=
  if !e.methodIsPost then (.notAllowed405, db, [])
  else if !e.parseFormOk then (.bad400, db, [])
  else if !e.hasFileField then (.err500, db, [])
  else if !e.mkdirOk then (.err500, db, [])
  else if !e.createOk then (.err500, db, [])
  else
    let p := stagedPath e
    let r := loadFileBody e db
    (r.1, r.2.1, .createLocal p :: r.2.2 ++ [.removeLocal p])

/-- Environment of one `GetFile` (GET /file/{idFile}) invocation. -/
structure GetEnv where
  methodIsGet : Bool
  rawId : String
  uuidOk : Bool
  minioGetOk : Bool
  mkdirOk : Bool
  createOk : Bool
  copyOk : Bool
  statOk : Bool
  now : Nat
  deriving Repr

/-- The tail of `GetFile` once the MinIO fetch has succeeded: create the
upload dir, stage the blob to a local file (which the handler never
deletes — the staging copy leaks), stat it and stream it.  An `io.Copy`
failure is another bare-`return` path (`noWrite`). -/
def getFileAfterFetch (e : GetEnv) : HStatus × List Ev :=
  if !e.mkdirOk then (.err500, [])
  else if !e.createOk then (.err500, [])
  else
    let p := "/tmp/fileserver/uploads/" ++ toString e.now ++ "_" ++ e.rawId
    if !e.copyOk then (.noWrite, [.createLocal p])
    else if !e.statOk then (.err500, [.createLocal p])
    else (.ok200, [.createLocal p])

/-- `GetFile` (GET /file/{idFile}): 405 on wrong method, 400 on a
malformed UUID, 404 when no live metadata row matches; then the MinIO
fetch — on whose failure the source does a bare `return` with no
`http.Error` (`noWrite`); then local staging and streaming. -/
def getFile (e : GetEnv) (db : DB) : HStatus × List Ev :=
  if !e.methodIsGet then (.notAllowed405, [])
  else if !e.uuidOk then (.bad400, [])
  else
    match getDocument db e.rawId with
    | none => (.notFound404, [.metaIdQuery e.rawId])
    | some _ =>
      let tr : List Ev := [.metaIdQuery e.rawId, .minioGet defaultBucketName e.rawId]
      if !e.minioGetOk then (.noWrite, tr)
      else
        let r := getFileAfterFetch e
        (r.1, tr ++ r.2)

/-- `GetFiles` handler (GET /files): builds the ILIKE pattern — the raw
search term embedded between `%` wildcards, with no escaping — and runs
the metadata query; it never touches the object store. -/
def buildSearchPattern (q : String) : String :=
  if q = "" then "%" else "%" ++ q ++ "%"

/-- Environment of one `GetFiles` (GET /files) invocation. -/
structure ListEnv where
  searchQuery : String
  dbOk : Bool
  deriving Repr

/-- `GetFiles` (GET /files): 500 when the metadata query fails, else 200
with the matching rows, in storage order. -/
def getFilesHandler (e : ListEnv) (db : DB) : HStatus × List Document × List Ev :=
  let pattern := buildSearchPattern e.searchQuery
  if !e.dbOk then (.err500, [], [.metaSearch pattern])
  else (.ok200, serviceGetFiles db pattern, [.metaSearch pattern])

/-- Environment of one `DeleteFile` (DELETE /file/{idFile}) invocation. -/
structure DelEnv where
  methodIsDelete : Bool
  rawId : String
  uuidOk : Bool
  dbDeleteOk : Bool
  now : Nat
  deriving Repr

/-- `DeleteFile` (DELETE /file/{idFile}): 405 on wrong method, 400 on a
malformed UUID; looks up the row through `service.GetDocument` — which
filters `deleted_at IS NULL` — and returns 404 when that finds nothing;
otherwise `config.DB.Delete` soft-deletes the row (500 on I/O failure).
No MinIO call appears anywhere in this handler. -/
def deleteFile (e : DelEnv) (db : DB) : HStatus × DB × List Ev :=
  if !e.methodIsDelete then (.notAllowed405, db, [])
  else if !e.uuidOk then (.bad400, db, [])
  else
    match getDocument db e.rawId with
    | none => (.notFound404, db, [.metaIdQuery e.rawId])
    | some doc =>
      if !e.dbDeleteOk then
        (.err500, db, [.metaIdQuery e.rawId, .metaSoftDelete doc.id])
      else
        (.ok200, softDelete db doc.id e.now,
          [.metaIdQuery e.rawId, .metaSoftDelete doc.id])

/-! ## Lemmas about LIKE matching -/

theorem lowL_append (a b : List Char) : lowL (a ++ b) = lowL a ++ lowL b :=
  List.map_append _ a b

theorem toNat_ofNat_valid (n : Nat) (h : n.isValidChar) : (Char.ofNat n).toNat = n := by
  simp [Char.ofNat, dif_pos h, Char.ofNatAux, Char.toNat, UInt32.toNat]

theorem toLower_eq (c : Char) :
    c.toLower = if c.toNat ≥ 65 ∧ c.toNat ≤ 90 then Char.ofNat (c.toNat + 32) else c := rfl

/-- Case folding never produces a LIKE wildcard or escape character. -/
theorem toLower_plain {c : Char} (h : plainChar c = true) : plainChar c.toLower = true := by
  rw [toLower_eq]
  split
  · next hn =>
    have hv : (c.toNat + 32).isValidChar := by
      left
      omega
    have ht : (Char.ofNat (c.toNat + 32)).toNat = c.toNat + 32 :=
      toNat_ofNat_valid _ hv
    simp only [plainChar, Bool.and_eq_true, Bool.not_eq_true']
    refine ⟨⟨?_, ?_⟩, ?_⟩
    · rw [beq_eq_false_iff_ne]
      intro he
      have h37 : ('%' : Char).toNat = 37 := rfl
      rw [he] at ht
      omega
    · rw [beq_eq_false_iff_ne]
      intro he
      have h95 : ('_' : Char).toNat = 95 := rfl
      rw [he] at ht
      omega
    · rw [beq_eq_false_iff_ne]
      intro he
      have h92 : ('\\' : Char).toNat = 92 := rfl
      rw [he] at ht
      omega
  · exact h

theorem hasPre_nil (s : List Char) : hasPre [] s = true := by
  cases s <;> rfl

theorem hasSub_nil (s : List Char) : hasSub [] s = true := by
  induction s with
  | nil => rfl
  | cons c cs ih => simp [hasSub, hasPre_nil]

theorem starM_iff (f : List Char → Bool) (s : List Char) :
    starM f s = true ↔ ∃ n, f (s.drop n) = true := by
  induction s with
  | nil =>
    simp only [starM, List.drop_nil]
    constructor
    · intro h
      exact ⟨0, h⟩
    · rintro ⟨n, hn⟩
      exact hn
  | cons c cs ih =>
    simp only [starM, Bool.or_eq_true, ih]
    constructor
    · rintro (h | ⟨n, hn⟩)
      · exact ⟨0, h⟩
      · exact ⟨n + 1, hn⟩
    · rintro ⟨n, hn⟩
      cases n with
      | zero => exact Or.inl hn
      | succ m => exact Or.inr ⟨m, hn⟩

theorem likeM_pct (ps s : List Char) :
    likeM ('%' :: ps) s = true ↔ ∃ n, likeM ps (s.drop n) = true := by
  have hd : likeM ('%' :: ps) s = starM (likeM ps) s := by
    rw [likeM]
  rw [hd]
  exact starM_iff _ s

theorem likeM_pct_singleton (s : List Char) : likeM ['%'] s = true :=
  (likeM_pct [] s).mpr ⟨s.length, by rw [List.drop_length]; rfl⟩

theorem likeM_plain_nil {a : Char} (ps : List Char)
    (h1 : a ≠ '%') (h2 : a ≠ '_') (h3 : a ≠ '\\') :
    likeM (a :: ps) [] = false := by
  simp [likeM, h1, h2, h3]

theorem likeM_plain_cons {a : Char} (ps : List Char) (c : Char) (cs : List Char)
    (h1 : a ≠ '%') (h2 : a ≠ '_') (h3 : a ≠ '\\') :
    likeM (a :: ps) (c :: cs) = (a == c && likeM ps cs) := by
  simp [likeM, h1, h2, h3]

theorem likeM_lit_pct {q : List Char} (h : q.all plainChar = true) (s : List Char) :
    likeM (q ++ ['%']) s = hasPre q s := by
  induction q generalizing s with
  | nil => simp [likeM_pct_singleton, hasPre_nil]
  | cons a as ih =>
    simp only [List.all_cons, Bool.and_eq_true] at h
    obtain ⟨ha, has⟩ := h
    simp only [plainChar, Bool.and_eq_true, Bool.not_eq_true', beq_eq_false_iff_ne] at ha
    obtain ⟨⟨h1, h2⟩, h3⟩ := ha
    cases s with
    | nil =>
      rw [List.cons_append, likeM_plain_nil _ h1 h2 h3]
      rfl
    | cons c cs =>
      rw [List.cons_append, likeM_plain_cons _ _ _ h1 h2 h3]
      rw [hasPre, ih has]

theorem hasSub_iff (q s : List Char) :
    hasSub q s = true ↔ ∃ n, hasPre q (s.drop n) = true := by
  induction s with
  | nil =>
    simp only [hasSub, List.drop_nil]
    constructor
    · intro h
      exact ⟨0, h⟩
    · rintro ⟨n, hn⟩
      exact hn
  | cons c cs ih =>
    simp only [hasSub, Bool.or_eq_true]
    constructor
    · intro h
      rcases h with h | h
      · exact ⟨0, h⟩
      · obtain ⟨n, hn⟩ := ih.mp h
        exact ⟨n + 1, hn⟩
    · rintro ⟨n, hn⟩
      cases n with
      | zero => exact Or.inl hn
      | succ m => exact Or.inr (ih.mpr ⟨m, hn⟩)

/-- Lowercasing a wildcard-free term keeps every character plain. -/
theorem lowL_plain {q : List Char} (h : q.all plainChar = true) :
    (lowL q).all plainChar = true := by
  rw [lowL, List.all_map]
  exact List.all_eq_true.mpr fun c hc =>
    toLower_plain (List.all_eq_true.mp h c hc)

/-- A pattern `% L T` whose tail `T` makes `L ++ T` act as a prefix test
for `L` matches exactly the subjects containing `L`. -/
theorem likeM_pct_sub {L : List Char} (T : List Char)
    (hlit : ∀ t, likeM (L ++ T) t = hasPre L t) (s : List Char) :
    likeM ('%' :: (L ++ T)) s = hasSub L s := by
  rcases hsub : hasSub L s with _ | _
  · rw [Bool.eq_false_iff]
    intro hmatch
    obtain ⟨n, hn⟩ := (likeM_pct (L ++ T) s).mp hmatch
    rw [hlit] at hn
    have hss : hasSub L s = true := (hasSub_iff _ _).mpr ⟨n, hn⟩
    rw [hsub] at hss
    exact Bool.false_ne_true hss
  · obtain ⟨n, hn⟩ := (hasSub_iff _ _).mp hsub
    exact (likeM_pct (L ++ T) s).mpr ⟨n, by rw [hlit]; exact hn⟩

theorem likeM_pct_pct (s : List Char) : likeM ['%', '%'] s = true :=
  (likeM_pct ['%'] s).mpr ⟨0, likeM_pct_singleton _⟩

theorem likeM_lit_pct2 {q : List Char} (h : q.all plainChar = true) (s : List Char) :
    likeM (q ++ ['%', '%']) s = hasPre q s := by
  induction q generalizing s with
  | nil => simp [likeM_pct_pct, hasPre_nil]
  | cons a as ih =>
    simp only [List.all_cons, Bool.and_eq_true] at h
    obtain ⟨ha, has⟩ := h
    simp only [plainChar, Bool.and_eq_true, Bool.not_eq_true', beq_eq_false_iff_ne] at ha
    obtain ⟨⟨h1, h2⟩, h3⟩ := ha
    cases s with
    | nil =>
      rw [List.cons_append, likeM_plain_nil _ h1 h2 h3]
      rfl
    | cons c cs =>
      rw [List.cons_append, likeM_plain_cons _ _ _ h1 h2 h3]
      rw [hasPre, ih has]

/-- The ILIKE pattern the handler builds from a wildcard-free search term
matches a name exactly when the name contains the term case-insensitively.
This also covers the empty term: the pattern is then the bare `%`, which
matches everything, and the empty string is a substring of everything. -/
theorem ilikeMatches_buildSearchPattern (q name : String) (h : wildcardFree q = true) :
    ilikeMatches (buildSearchPattern q) name = icontains q name := by
  by_cases hq : q = ""
  · subst hq
    have hempty : icontains "" name = true := hasSub_nil _
    have hpct : ilikeMatches (buildSearchPattern "") name = true := by
      have h1 : buildSearchPattern "" = "%" := rfl
      rw [h1, ilikeMatches]
      have h2 : lowL "%".data = ['%'] := rfl
      rw [h2, likeM_pct_singleton]
    rw [hpct, hempty]
  · have hpat : (buildSearchPattern q).data = '%' :: q.data ++ ['%'] := by
      rw [buildSearchPattern, if_neg hq]
      simp [String.data_append]
    rw [ilikeMatches, hpat]
    have hlow : lowL ('%' :: q.data ++ ['%']) = '%' :: (lowL q.data ++ ['%']) := by
      simp [lowL]
    rw [hlow]
    have hplain : (lowL q.data).all plainChar = true := lowL_plain h
    rw [icontains]
    exact likeM_pct_sub ['%'] (likeM_lit_pct hplain) (lowL name.data)

/-! ## Characterization of the upload workflow -/

/-- When the staged file is created successfully, `LoadFile` runs the rest
of the workflow and the deferred close/`cleanup` wraps the whole body:
the trace starts with the local-file creation and ends with its removal. -/
theorem loadFile_main (e : UploadEnv) (db : DB)
    (hm : e.methodIsPost = true) (hp : e.parseFormOk = true) (hf : e.hasFileField = true)
    (hd : e.mkdirOk = true) (hc : e.createOk = true) :
    loadFile e db =
      ((loadFileBody e db).1, (loadFileBody e db).2.1,
        Ev.createLocal (stagedPath e) :: (loadFileBody e db).2.2
          ++ [Ev.removeLocal (stagedPath e)]) := by
  simp [loadFile, hm, hp, hf, hd, hc]

/-- Every early-return path of `LoadFile` (before the staged file exists)
performs no external effect and leaves the metadata store unchanged. -/
theorem loadFile_early (e : UploadEnv) (db : DB)
    (h : e.methodIsPost = false ∨ e.parseFormOk = false ∨ e.hasFileField = false ∨
         e.mkdirOk = false ∨ e.createOk = false) :
    (loadFile e db).2.2 = [] ∧ (loadFile e db).2.1 = db := by
  cases hm : e.methodIsPost <;> cases hp : e.parseFormOk <;> cases hf : e.hasFileField <;>
    cases hd : e.mkdirOk <;> cases hc : e.createOk <;> simp_all [loadFile]

/-- The five possible outcomes of the upload body: copy failure, duplicate
fingerprint, object-store failure, metadata-insert failure, success. -/
theorem loadFileBody_cases (e : UploadEnv) (db : DB) :
    (e.copyOk = false ∧ loadFileBody e db = (.err500, db, [])) ∨
    (∃ d, getDocumentByFingerprint db e.freshFingerprint = some d ∧
       loadFileBody e db = (.conflict409, db, [.metaFpQuery e.freshFingerprint])) ∨
    (e.minioPutOk = false ∧ loadFileBody e db =
       (.err500, db,
         [.metaFpQuery e.freshFingerprint, .minioPut defaultBucketName e.freshId])) ∨
    (e.minioPutOk = true ∧ addDocument db (newDocument e) e.insertIoOk = none ∧
       loadFileBody e db =
       (.err500, db,
         [.metaFpQuery e.freshFingerprint, .minioPut defaultBucketName e.freshId,
          .metaInsert false])) ∨
    (e.minioPutOk = true ∧ ∃ db2, addDocument db (newDocument e) e.insertIoOk = some db2 ∧
       loadFileBody e db =
       (.ok200, db2,
         [.metaFpQuery e.freshFingerprint, .minioPut defaultBucketName e.freshId,
          .metaInsert true])) := by
  cases hcp : e.copyOk
  · exact Or.inl ⟨rfl, by simp [loadFileBody, hcp]⟩
  · cases hq : getDocumentByFingerprint db e.freshFingerprint with
    | some d =>
      exact Or.inr (Or.inl ⟨d, rfl, by simp [loadFileBody, hcp, hq]⟩)
    | none =>
      cases hput : e.minioPutOk
      · exact Or.inr (Or.inr (Or.inl ⟨rfl, by simp [loadFileBody, hcp, hq, hput]⟩))
      · cases hadd : addDocument db (newDocument e) e.insertIoOk with
        | none =>
          exact Or.inr (Or.inr (Or.inr (Or.inl
            ⟨rfl, rfl, by simp [loadFileBody, hcp, hq, hput, hadd]⟩)))
        | some db2 =>
          exact Or.inr (Or.inr (Or.inr (Or.inr
            ⟨rfl, db2, rfl, by simp [loadFileBody, hcp, hq, hput, hadd]⟩)))

/-! ## Claims -/

/-- C3 counterexample: the claim "a non-empty term returns exactly the
non-deleted documents whose name contains that term as a case-insensitive
substring" is false for a term containing a LIKE wildcard.  With search
term `"_"` the listing returns the document named `"x"`, although `"x"`
does not contain the character `'_'`: the term is embedded unescaped in
the ILIKE pattern, so `_` matches any single character. -/
theorem c3_counterexample :
    (getFilesHandler { searchQuery := "_", dbOk := true }
        [⟨1, "x", "u1", "f1", none⟩]).2.1 = [⟨1, "x", "u1", "f1", none⟩] ∧
    icontains "_" "x" = false := by
  constructor
  · decide
  · decide

/-- C3 (amended): for a search term free of LIKE wildcard/escape
characters (`%`, `_`, `\`), the listing returns exactly the non-deleted
documents whose name contains the term as a case-insensitive substring —
the empty term included, in which case it matches everything; and the
listing handler's trace is the single metadata query, so it never reads
or writes the object store. -/
theorem c3_listing_nondeleted_icontains (q : String) (db : DB) (d : Document)
    (e : ListEnv) (h : wildcardFree q = true) :
    (d ∈ (getFilesHandler { searchQuery := q, dbOk := true } db).2.1 ↔
       d ∈ db ∧ d.deletedAt = none ∧ icontains q d.name = true) ∧
    (getFilesHandler e db).2.2 = [Ev.metaSearch (buildSearchPattern e.searchQuery)] := by
  constructor
  · have hred : (getFilesHandler { searchQuery := q, dbOk := true } db).2.1 =
        serviceGetFiles db (buildSearchPattern q) := rfl
    rw [hred, serviceGetFiles, List.mem_filter]
    simp only [Bool.and_eq_true, Option.isNone_iff_eq_none,
      ilikeMatches_buildSearchPattern q d.name h, and_assoc]
  · cases hok : e.dbOk <;> simp [getFilesHandler, hok]

/-- Witness for C3: concrete listing over a two-row table with term `"a"`. -/
theorem c3_witness :
    ((⟨1, "bAg", "u1", "f1", none⟩ : Document) ∈
        (getFilesHandler { searchQuery := "a", dbOk := true }
          [⟨1, "bAg", "u1", "f1", none⟩, ⟨2, "zzz", "u2", "f2", none⟩]).2.1 ↔
       (⟨1, "bAg", "u1", "f1", none⟩ : Document) ∈
          ([⟨1, "bAg", "u1", "f1", none⟩, ⟨2, "zzz", "u2", "f2", none⟩] : DB) ∧
       (⟨1, "bAg", "u1", "f1", none⟩ : Document).deletedAt = none ∧
       icontains "a" (⟨1, "bAg", "u1", "f1", none⟩ : Document).name = true) ∧
    (getFilesHandler { searchQuery := "a", dbOk := true }
        [⟨1, "bAg", "u1", "f1", none⟩, ⟨2, "zzz", "u2", "f2", none⟩]).2.2 =
      [Ev.metaSearch (buildSearchPattern "a")] :=
  c3_listing_nondeleted_icontains "a"
    [⟨1, "bAg", "u1", "f1", none⟩, ⟨2, "zzz", "u2", "f2", none⟩]
    ⟨1, "bAg", "u1", "f1", none⟩ { searchQuery := "a", dbOk := true } (by decide)

/-- C10: the search term is embedded unescaped between `%` wildcards, so
`%` and `_` in the term act as LIKE wildcards, not literals.  The pattern
built from `"100%"` is `%100%%`, which matches exactly the names
containing `"100"` (case-insensitively): in particular `"report100x"`,
which does not contain the literal string `"100%"`; and `"a_c"` matches
`"abc"`. -/
theorem c10_unescaped_wildcards :
    buildSearchPattern "100%" = "%100%%" ∧
    (∀ name : String,
      ilikeMatches (buildSearchPattern "100%") name = icontains "100" name) ∧
    ilikeMatches (buildSearchPattern "100%") "report100x" = true ∧
    icontains "100%" "report100x" = false ∧
    ilikeMatches (buildSearchPattern "a_c") "abc" = true ∧
    icontains "a_c" "abc" = false := by
  refine ⟨by decide, ?_, by decide, by decide, by decide, by decide⟩
  intro name
  have hpat : (buildSearchPattern "100%").data = '%' :: ("100".data ++ ['%', '%']) := rfl
  rw [ilikeMatches, hpat]
  have hlow : lowL ('%' :: ("100".data ++ ['%', '%'])) =
      '%' :: (['1', '0', '0'] ++ ['%', '%']) := rfl
  rw [hlow]
  have hplain : (['1', '0', '0'] : List Char).all plainChar = true := by decide
  rw [likeM_pct_sub ['%', '%'] (likeM_lit_pct2 hplain) (lowL name.data)]
  rfl

/-- First upload invocation used for C1: bytes `[1, 2, 3]`, random
fingerprint draw `"fp-one"`, fresh file id `"id-one"`. -/
def uploadEnvA : UploadEnv :=
  { methodIsPost := true, parseFormOk := true, hasFileField := true,
    filename := "a.txt", content := [1, 2, 3], mkdirOk := true, createOk := true,
    copyOk := true, now := 100, freshFingerprint := "fp-one", freshId := "id-one",
    minioPutOk := true, insertIoOk := true, nextRowId := 1 }

/-- Second upload invocation used for C1: the same bytes `[1, 2, 3]`, but
the random source yields `"fp-two"` and `"id-two"` this time. -/
def uploadEnvB : UploadEnv :=
  { uploadEnvA with
    filename := "b.txt", now := 200,
    freshFingerprint := "fp-two", freshId := "id-two", nextRowId := 2 }

/-- C1: the fingerprint is `uuid.New().String()` — a fresh draw from the
random source, not a function of the staged bytes (the handler never
reads the file content to compute it, witnessed by the second conjunct).
Two uploads of identical bytes therefore get different fingerprints, the
duplicate check finds nothing, and the second upload performs an
object-store write and a metadata insert instead of aborting with the
"document already exists" (409) outcome the claim requires. -/
theorem c1_fingerprint_not_content_derived :
    uploadEnvA.content = uploadEnvB.content ∧
    (∀ bytes : List Nat,
      ((loadFile { uploadEnvA with content := bytes } []).2.1.map
        Document.fingerprint) = ["fp-one"]) ∧
    (loadFile uploadEnvA []).1 = .ok200 ∧
    (loadFile uploadEnvB (loadFile uploadEnvA []).2.1).1 = .ok200 ∧
    Ev.minioPut defaultBucketName "id-two" ∈
      (loadFile uploadEnvB (loadFile uploadEnvA []).2.1).2.2 ∧
    Ev.metaInsert true ∈ (loadFile uploadEnvB (loadFile uploadEnvA []).2.1).2.2 ∧
    ((loadFile uploadEnvB (loadFile uploadEnvA []).2.1).2.1.map
      Document.fingerprint) = ["fp-one", "fp-two"] :=
  ⟨rfl, fun _ => rfl, by decide, by decide, by decide, by decide, by decide⟩

/-- `insertsAfterPut seen tr`: scanning `tr` left to right, every
`metaInsert` event is preceded by some `minioPut` event (`seen` records
whether a put has occurred so far). -/
def insertsAfterPut (seen : Bool) : List Ev → Bool
  | [] => true
  | Ev.minioPut _ _ :: tl => insertsAfterPut true tl
  | Ev.metaInsert _ :: tl => seen && insertsAfterPut seen tl
  | _ :: tl => insertsAfterPut seen tl

/-- C2: within one upload invocation every metadata insert is preceded in
the effect trace by the object-store put, an insert happens only when that
put succeeded, a failed insert leaves the metadata store unchanged and
reports 500 — orphaning the blob just written — and no branch of the
upload ever issues an object-store delete. -/
theorem c2_insert_only_after_put_no_compensation (e : UploadEnv) (db : DB) :
    insertsAfterPut false (loadFile e db).2.2 = true ∧
    (∀ b : Bool, Ev.metaInsert b ∈ (loadFile e db).2.2 → e.minioPutOk = true) ∧
    (Ev.metaInsert false ∈ (loadFile e db).2.2 →
       (loadFile e db).1 = .err500 ∧ (loadFile e db).2.1 = db) ∧
    (∀ bk k, Ev.minioDelete bk k ∉ (loadFile e db).2.2) := by
  by_cases hall : e.methodIsPost = true ∧ e.parseFormOk = true ∧ e.hasFileField = true ∧
      e.mkdirOk = true ∧ e.createOk = true
  · obtain ⟨hm, hp, hf, hd, hc⟩ := hall
    have hmain := loadFile_main e db hm hp hf hd hc
    rcases loadFileBody_cases e db with ⟨hcp, hb⟩ | ⟨d, hq, hb⟩ | ⟨hput, hb⟩ |
        ⟨hput, hadd, hb⟩ | ⟨hput, db2, hadd, hb⟩ <;>
      rw [hmain, hb] <;> refine ⟨rfl, ?_, ?_, ?_⟩ <;> simp <;> exact hput
  · have h0 : e.methodIsPost = false ∨ e.parseFormOk = false ∨ e.hasFileField = false ∨
        e.mkdirOk = false ∨ e.createOk = false := by
      simp only [not_and_or, Bool.not_eq_true] at hall
      exact hall
    obtain ⟨htr, _⟩ := loadFile_early e db h0
    rw [htr]
    simp [insertsAfterPut]

/-- C9: once the staged file was created (`os.Create` succeeded), the
deferred close/`cleanup` removes it on every return path of `LoadFile`:
the effect trace starts with the local creation and ends with the local
removal of the same path, whatever the outcome of the copy, the duplicate
check, the object-store write and the metadata insert. -/
theorem c9_staged_file_cleanup (e : UploadEnv) (db : DB)
    (hm : e.methodIsPost = true) (hp : e.parseFormOk = true) (hf : e.hasFileField = true)
    (hd : e.mkdirOk = true) (hc : e.createOk = true) :
    ∃ evs, (loadFile e db).2.2 =
      Ev.createLocal (stagedPath e) :: evs ++ [Ev.removeLocal (stagedPath e)] :=
  ⟨(loadFileBody e db).2.2, by rw [loadFile_main e db hm hp hf hd hc]⟩

/-- Upload invocation used for the C9 witness: the copy into the staged
file fails, so every step after staging is skipped — the staged file is
removed anyway. -/
def uploadEnvCopyFail : UploadEnv :=
  { methodIsPost := true, parseFormOk := true, hasFileField := true,
    filename := "w.txt", content := [7], mkdirOk := true, createOk := true,
    copyOk := false, now := 5, freshFingerprint := "fw", freshId := "iw",
    minioPutOk := false, insertIoOk := false, nextRowId := 9 }

/-- Witness for C9 on a failing upload path. -/
theorem c9_witness :
    ∃ evs, (loadFile uploadEnvCopyFail []).2.2 =
      Ev.createLocal (stagedPath uploadEnvCopyFail) :: evs
        ++ [Ev.removeLocal (stagedPath uploadEnvCopyFail)] :=
  c9_staged_file_cleanup uploadEnvCopyFail [] rfl rfl rfl rfl rfl

/-- C4: when the identifier is a well-formed UUID but the metadata store
holds no live row for it (no row at all, or only soft-deleted ones),
`GetFile` answers 404 and its trace is the bare metadata lookup — no
object-store fetch is attempted.  Moreover, in every invocation
whatsoever, an object-store fetch can only appear immediately after the
metadata lookup, never before it. -/
theorem c4_retrieval_notfound_meta_first (e : GetEnv) (db : DB)
    (hm : e.methodIsGet = true) (hu : e.uuidOk = true)
    (hnone : ∀ d ∈ db, d.idFile = e.rawId → d.deletedAt ≠ none) :
    (getFile e db).1 = .notFound404 ∧
    (getFile e db).2 = [Ev.metaIdQuery e.rawId] ∧
    (∀ (e2 : GetEnv) (db2 : DB) (b k : String),
      Ev.minioGet b k ∈ (getFile e2 db2).2 →
        ∃ rest, (getFile e2 db2).2 =
          Ev.metaIdQuery e2.rawId :: Ev.minioGet defaultBucketName e2.rawId :: rest) := by
  have hfind : getDocument db e.rawId = none := by
    rw [getDocument, List.find?_eq_none]
    intro d hd
    simp only [Bool.and_eq_true, Option.isNone_iff_eq_none, beq_iff_eq, not_and]
    intro hdel hid
    exact absurd hdel (hnone d hd hid)
  refine ⟨by simp [getFile, hm, hu, hfind], by simp [getFile, hm, hu, hfind], ?_⟩
  intro e2 db2 b k hmem
  by_cases hm2 : e2.methodIsGet = true
  · by_cases hu2 : e2.uuidOk = true
    · cases hdoc : getDocument db2 e2.rawId with
      | none =>
        rw [getFile] at hmem
        simp [hm2, hu2, hdoc] at hmem
      | some doc =>
        cases hg : e2.minioGetOk
        · exact ⟨[], by simp [getFile, hm2, hu2, hdoc, hg]⟩
        · exact ⟨(getFileAfterFetch e2).2, by simp [getFile, hm2, hu2, hdoc, hg]⟩
    · rw [getFile] at hmem
      simp [hm2, hu2] at hmem
  · rw [getFile] at hmem
    simp [hm2] at hmem

/-- Retrieval invocation used for the C4 witness. -/
def getEnvSoftDeleted : GetEnv :=
  { methodIsGet := true, rawId := "u1", uuidOk := true, minioGetOk := true,
    mkdirOk := true, createOk := true, copyOk := true, statOk := true, now := 3 }

/-- Witness for C4: a table holding only a soft-deleted row for the
requested identifier. -/
theorem c4_witness :
    (getFile getEnvSoftDeleted [⟨1, "a.txt", "u1", "f1", some 7⟩]).1 = .notFound404 ∧
    (getFile getEnvSoftDeleted [⟨1, "a.txt", "u1", "f1", some 7⟩]).2 =
      [Ev.metaIdQuery "u1"] ∧
    (∀ (e2 : GetEnv) (db2 : DB) (b k : String),
      Ev.minioGet b k ∈ (getFile e2 db2).2 →
        ∃ rest, (getFile e2 db2).2 =
          Ev.metaIdQuery e2.rawId :: Ev.minioGet defaultBucketName e2.rawId :: rest) :=
  c4_retrieval_notfound_meta_first _ _ rfl rfl (by decide)

/-- Retrieval invocation used for C8: the metadata row exists but the
object-store fetch fails. -/
def getEnvFetchFail : GetEnv :=
  { methodIsGet := true, rawId := "u1", uuidOk := true, minioGetOk := false,
    mkdirOk := true, createOk := true, copyOk := true, statOk := true, now := 0 }

/-- C8: when the metadata row exists and the MinIO fetch fails, `GetFile`
does a bare `return` without calling `http.Error`: nothing is written to
the response, so no error status reaches the caller (Go's `net/http` then
sends an implicit `200 OK` with an empty body) — contradicting the claim
that a not-found or storage-error status is always sent. -/
theorem c8_fetch_failure_writes_no_error :
    (getFile getEnvFetchFail [⟨1, "a.txt", "u1", "f1", none⟩]).1 = .noWrite ∧
    (getFile getEnvFetchFail [⟨1, "a.txt", "u1", "f1", none⟩]).1 ≠ .notFound404 ∧
    (getFile getEnvFetchFail [⟨1, "a.txt", "u1", "f1", none⟩]).1 ≠ .err500 ∧
    (getFile getEnvFetchFail [⟨1, "a.txt", "u1", "f1", none⟩]).1 ≠ .bad400 := by
  decide

/-- Deletion invocation used for C5. -/
def delEnvU1 : DelEnv :=
  { methodIsDelete := true, rawId := "u1", uuidOk := true, dbDeleteOk := true, now := 9 }

/-- C5 counterexample: the claim says the deletion lookup considers any
matching row, soft-deleted ones included, and 404s only when no such row
exists.  But `DeleteFile` resolves the row through `service.GetDocument`,
whose query filters `deleted_at IS NULL`: with a table holding exactly one
row for `"u1"` — already soft-deleted — the handler answers 404 although a
matching row exists. -/
theorem c5_counterexample :
    ((⟨1, "a.txt", "u1", "f1", some 5⟩ : Document) ∈
        ([⟨1, "a.txt", "u1", "f1", some 5⟩] : DB) ∧
     (⟨1, "a.txt", "u1", "f1", some 5⟩ : Document).idFile = delEnvU1.rawId) ∧
    (deleteFile delEnvU1 [⟨1, "a.txt", "u1", "f1", some 5⟩]).1 = .notFound404 := by
  decide

/-- C5 (amended): the deletion lookup considers only non-deleted rows —
404 exactly when no live row carries the identifier (even if a
soft-deleted one does); when a live row is found and the store write
succeeds, that row is marked soft-deleted (its `deletedAt` set to the
current time), every other row is untouched, and no branch of the handler
ever deletes the object-store blob. -/
theorem c5_softdelete_no_blob_delete (e : DelEnv) (db : DB)
    (hm : e.methodIsDelete = true) (hu : e.uuidOk = true) :
    (getDocument db e.rawId = none →
       (deleteFile e db).1 = .notFound404 ∧ (deleteFile e db).2.1 = db) ∧
    (∀ d, getDocument db e.rawId = some d → e.dbDeleteOk = true →
       (deleteFile e db).1 = .ok200 ∧
       (deleteFile e db).2.1 = softDelete db d.id e.now ∧
       (∀ r ∈ db, r.id = d.id → r.deletedAt = none →
          { r with deletedAt := some e.now } ∈ (deleteFile e db).2.1) ∧
       (∀ r ∈ db, r.id ≠ d.id → r ∈ (deleteFile e db).2.1)) ∧
    (∀ b k, Ev.minioDelete b k ∉ (deleteFile e db).2.2) := by
  refine ⟨?_, ?_, ?_⟩
  · intro h
    simp [deleteFile, hm, hu, h]
  · intro d hd hok
    have hred : deleteFile e db =
        (.ok200, softDelete db d.id e.now,
          [Ev.metaIdQuery e.rawId, Ev.metaSoftDelete d.id]) := by
      simp [deleteFile, hm, hu, hd, hok]
    rw [hred]
    refine ⟨rfl, rfl, ?_, ?_⟩
    · intro r hr hid hlive
      refine List.mem_map.mpr ⟨r, hr, ?_⟩
      simp [hid, hlive]
    · intro r hr hid
      refine List.mem_map.mpr ⟨r, hr, ?_⟩
      simp [hid]
  · intro b k
    cases hdoc : getDocument db e.rawId with
    | none => simp [deleteFile, hm, hu, hdoc]
    | some d =>
      cases hok : e.dbDeleteOk <;> simp [deleteFile, hm, hu, hdoc, hok]

/-- Witness for C5: soft-deleting the only live row of a two-row table. -/
theorem c5_witness :
    ((getDocument [⟨1, "a.txt", "u1", "f1", none⟩] "u1" = none →
       (deleteFile delEnvU1 [⟨1, "a.txt", "u1", "f1", none⟩]).1 = .notFound404 ∧
       (deleteFile delEnvU1 [⟨1, "a.txt", "u1", "f1", none⟩]).2.1 =
         [⟨1, "a.txt", "u1", "f1", none⟩]) ∧
     (∀ d, getDocument [⟨1, "a.txt", "u1", "f1", none⟩] "u1" = some d →
        delEnvU1.dbDeleteOk = true →
        (deleteFile delEnvU1 [⟨1, "a.txt", "u1", "f1", none⟩]).1 = .ok200 ∧
        (deleteFile delEnvU1 [⟨1, "a.txt", "u1", "f1", none⟩]).2.1 =
          softDelete [⟨1, "a.txt", "u1", "f1", none⟩] d.id delEnvU1.now ∧
        (∀ r ∈ ([⟨1, "a.txt", "u1", "f1", none⟩] : DB), r.id = d.id →
           r.deletedAt = none →
           { r with deletedAt := some delEnvU1.now } ∈
             (deleteFile delEnvU1 [⟨1, "a.txt", "u1", "f1", none⟩]).2.1) ∧
        (∀ r ∈ ([⟨1, "a.txt", "u1", "f1", none⟩] : DB), r.id ≠ d.id →
           r ∈ (deleteFile delEnvU1 [⟨1, "a.txt", "u1", "f1", none⟩]).2.1)) ∧
     (∀ b k, Ev.minioDelete b k ∉
        (deleteFile delEnvU1 [⟨1, "a.txt", "u1", "f1", none⟩]).2.2)) :=
  c5_softdelete_no_blob_delete delEnvU1 [⟨1, "a.txt", "u1", "f1", none⟩] rfl rfl

/-- C6: `id_file` and `fingerprint` are table-wide `UNIQUE` — an insert
preserves the uniqueness invariant, a soft delete preserves it (it touches
only `deleted_at`), an insert colliding with ANY existing row — soft-
deleted ones included — fails (a fingerprint is never reused after
deletion), and every lookup/listing returns only non-deleted rows. -/
theorem c6_uniqueness_and_exclusion (db db2 : DB) (doc : Document) (ioOk : Bool)
    (rowId now : Nat) (pat fp i : String) (h : uniqueKeys db) :
    (addDocument db doc ioOk = some db2 → uniqueKeys db2) ∧
    uniqueKeys (softDelete db rowId now) ∧
    (∀ r ∈ db, r.fingerprint = doc.fingerprint ∨ r.idFile = doc.idFile →
       addDocument db doc ioOk = none) ∧
    (∀ d ∈ serviceGetFiles db pat, d.deletedAt = none) ∧
    (∀ d, getDocument db i = some d → d.deletedAt = none) ∧
    (∀ d, getDocumentByFingerprint db fp = some d → d.deletedAt = none) := by
  refine ⟨?_, ?_, ?_, ?_, ?_, ?_⟩
  · intro hadd
    rw [addDocument] at hadd
    split at hadd
    · next hcond =>
      obtain ⟨hio, hall⟩ := Bool.and_eq_true_iff.mp hcond
      have hallP := List.all_eq_true.mp hall
      injection hadd with hdb2
      subst hdb2
      constructor
      · rw [List.map_append, List.nodup_append]
        refine ⟨h.1, List.nodup_singleton _, ?_⟩
        intro x hx hx2
        obtain ⟨r, hr, hxr⟩ := List.mem_map.mp hx
        have hplain := hallP r hr
        simp only [Bool.and_eq_true, Bool.not_eq_true', beq_eq_false_iff_ne] at hplain
        rw [List.map_singleton, List.mem_singleton] at hx2
        exact hplain.1 (hxr.trans hx2)
      · rw [List.map_append, List.nodup_append]
        refine ⟨h.2, List.nodup_singleton _, ?_⟩
        intro x hx hx2
        obtain ⟨r, hr, hxr⟩ := List.mem_map.mp hx
        have hplain := hallP r hr
        simp only [Bool.and_eq_true, Bool.not_eq_true', beq_eq_false_iff_ne] at hplain
        rw [List.map_singleton, List.mem_singleton] at hx2
        exact hplain.2 (hxr.trans hx2)
    · exact absurd hadd (by simp)
  · have hid : (softDelete db rowId now).map Document.idFile = db.map Document.idFile := by
      rw [softDelete, List.map_map]
      apply List.map_congr_left
      intro r _
      simp only [Function.comp_apply]
      split <;> rfl
    have hfp : (softDelete db rowId now).map Document.fingerprint =
        db.map Document.fingerprint := by
      rw [softDelete, List.map_map]
      apply List.map_congr_left
      intro r _
      simp only [Function.comp_apply]
      split <;> rfl
    rw [uniqueKeys, hid, hfp]
    exact h
  · intro r hr hviol
    have hneg : ¬ ((ioOk && db.all fun r2 =>
        !(r2.idFile == doc.idFile) && !(r2.fingerprint == doc.fingerprint)) = true) := by
      intro hcond
      obtain ⟨hio, hall⟩ := Bool.and_eq_true_iff.mp hcond
      have hthis := List.all_eq_true.mp hall r hr
      simp only [Bool.and_eq_true, Bool.not_eq_true', beq_eq_false_iff_ne] at hthis
      rcases hviol with hv | hv
      · exact hthis.2 hv
      · exact hthis.1 hv
    rw [addDocument, if_neg hneg]
  · intro d hd
    have hmem := List.mem_filter.mp hd
    simp only [Bool.and_eq_true, Option.isNone_iff_eq_none] at hmem
    exact hmem.2.1
  · intro d hd
    have hpred := List.find?_some hd
    simp only [Bool.and_eq_true, Option.isNone_iff_eq_none] at hpred
    exact hpred.1
  · intro d hd
    have hpred := List.find?_some hd
    simp only [Bool.and_eq_true, Option.isNone_iff_eq_none] at hpred
    exact hpred.1

/-- Two-row table (one live, one soft-deleted) used for the C6 witness. -/
def c6SampleDb : DB :=
  [⟨1, "a.txt", "u1", "f1", none⟩, ⟨2, "b.txt", "u2", "f2", some 3⟩]

/-- Document colliding on fingerprint with the soft-deleted row, used for
the C6 witness. -/
def c6SampleDoc : Document := ⟨3, "c.txt", "u3", "f2", none⟩

/-- Witness for C6 on a concrete two-row table. -/
theorem c6_witness :
    ((addDocument c6SampleDb c6SampleDoc true = some ((c6SampleDb ++ [c6SampleDoc] : DB)) →
        uniqueKeys (c6SampleDb ++ [c6SampleDoc])) ∧
     uniqueKeys (softDelete c6SampleDb 1 7) ∧
     (∀ r ∈ c6SampleDb, r.fingerprint = c6SampleDoc.fingerprint ∨
        r.idFile = c6SampleDoc.idFile → addDocument c6SampleDb c6SampleDoc true = none) ∧
     (∀ d ∈ serviceGetFiles c6SampleDb "%", d.deletedAt = none) ∧
     (∀ d, getDocument c6SampleDb "u2" = some d → d.deletedAt = none) ∧
     (∀ d, getDocumentByFingerprint c6SampleDb "f2" = some d → d.deletedAt = none)) :=
  c6_uniqueness_and_exclusion c6SampleDb (c6SampleDb ++ [c6SampleDoc]) c6SampleDoc true
    1 7 "%" "f2" "u2" (by constructor <;> decide)

/-- Upload invocation used for C7: the multipart form parses but carries
no `file` field. -/
def uploadEnvNoField : UploadEnv :=
  { methodIsPost := true, parseFormOk := true, hasFileField := false,
    filename := "x", content := [], mkdirOk := true, createOk := true,
    copyOk := true, now := 0, freshFingerprint := "f", freshId := "i",
    minioPutOk := true, insertIoOk := true, nextRowId := 1 }

/-- C7 counterexample: a well-formed multipart request without a `file`
form field is answered with 500 (`http.StatusInternalServerError`), not
with the 400 the claim requires for every malformed upload. -/
theorem c7_counterexample :
    (loadFile uploadEnvNoField []).1 = .err500 ∧
    (loadFile uploadEnvNoField []).1 ≠ .bad400 := by
  decide

/-- C7 (amended): multipart parsing uses the 10 MiB constant
(`10 << 20` bytes); a request whose multipart body fails to parse
(malformed or over the limit) receives 400 — but a parsed form lacking
the `file` field receives 500, not 400. -/
theorem c7_parse_limit_and_statuses (e : UploadEnv) (db : DB)
    (hm : e.methodIsPost = true) :
    multipartLimit = 10 * 1024 * 1024 ∧
    (e.parseFormOk = false → loadFile e db = (.bad400, db, [])) ∧
    (e.parseFormOk = true → e.hasFileField = false →
      loadFile e db = (.err500, db, [])) := by
  refine ⟨by decide, ?_, ?_⟩
  · intro hp
    simp [loadFile, hm, hp]
  · intro hp hf
    simp [loadFile, hm, hp, hf]

/-- Witness for C7 at the missing-field invocation. -/
theorem c7_witness :
    multipartLimit = 10 * 1024 * 1024 ∧
    (uploadEnvNoField.parseFormOk = false →
      loadFile uploadEnvNoField [] = (.bad400, [], [])) ∧
    (uploadEnvNoField.parseFormOk = true → uploadEnvNoField.hasFileField = false →
      loadFile uploadEnvNoField [] = (.err500, [], [])) :=
  c7_parse_limit_and_statuses uploadEnvNoField [] rfl

end Fileserver
